import Mathlib

set_option linter.unusedVariables false

/-!
Shallow embedding of the harborapi request core: pagination following,
bounded retry, status-error mapping, credential resolution, base-URL
normalization (all modelled from the spec, as the client module is not part
of the given sources), and the auth-file helpers of harborapi/auth.py
(translated from the source).
-/

/-- Modelled from the spec: the decoded JSON body of one page of a
list-returning request, which either is a JSON array of elements or some
non-array value (e.g. a JSON object). The client module holding the
pagination follower is missing from the sources. -/
inductive Body (α : Type) where
  | arr (elems : List α)
  | nonArr
deriving DecidableEq

/-- Modelled from the spec: one HTTP response: a status code, a decoded
body, and whether the response metadata carries a continuation reference
(a link header annotated with a "next" relation). -/
structure Response (α : Type) where
  status : Nat
  body : Body α
  next : Bool
deriving DecidableEq

/-- Modelled from the spec: the errors the request pipeline can raise; a
received response with status at least 400 raises a status error. -/
inductive GetError where
  | statusError (code : Nat)
deriving DecidableEq

/-- The elements carried by a page body (empty for a non-array body). -/
def page_elems {α : Type} (r : Response α) : List α :=
  match r.body with
  | .arr elems => elems
  | .nonArr => []

/-- Whether a body decodes as a JSON array. -/
def is_array {α : Type} : Body α → Bool
  | .arr _ => true
  | .nonArr => false

/-- The log message emitted on a pagination anomaly (from the test suite:
"Unable to handle paginated results"). -/
def pagination_anomaly_msg : String := "Unable to handle paginated results"

/-- Modelled from the spec: the pagination follower's loop over the
successor pages the server serves at successive continuation references.
Each follow-up response is status-checked; an array body is appended to the
accumulator and following continues while a continuation reference is
present; a non-array body stops following without raising, logs the
anomaly and returns what was accumulated. -/
def handle_pagination {α : Type} (acc : List α) :
    List (Response α) → Except GetError (List α × List String)
  | [] => .ok (acc, [])
  | r :: rest =>
    if 400 ≤ r.status then .error (.statusError r.status)
    else
      match r.body with
      | .arr elems =>
        if r.next then handle_pagination (acc ++ elems) rest
        else .ok (acc ++ elems, [])
      | .nonArr => .ok (acc, [pagination_anomaly_msg])

/-- Modelled from the spec: a list-shaped GET. The first response is
status-checked; a non-array first body passes through untouched; an array
first body starts the pagination follower when link-following is enabled
and the response carries a continuation reference. `rest` is the sequence
of pages the server would serve at the successive continuation
references. -/
def paginated_get {α : Type} (first : Response α) (rest : List (Response α))
    (follow : Bool) : Except GetError (Body α × List String) :=
  if 400 ≤ first.status then .error (.statusError first.status)
  else
    match first.body with
    | .arr elems =>
      if follow && first.next then
        match handle_pagination elems rest with
        | .ok (all, logs) => .ok (.arr all, logs)
        | .error e => .error e
      else .ok (.arr elems, [])
    | .nonArr => .ok (first.body, [])

/-- A chain of pages in which every page links to the next except the
last, which carries no continuation reference. -/
def well_linked {α : Type} : List (Response α) → Bool
  | [] => true
  | [r] => r.next == false
  | r :: s :: rest => r.next == true && well_linked (s :: rest)

/-- Every page in the list was received with a success status and an
array body. -/
def pages_ok {α : Type} (rs : List (Response α)) : Bool :=
  rs.all (fun r => decide (r.status < 400) && is_array r.body)

/-- Modelled from the spec: the outcome of one transport attempt — either a
connection-level failure (no HTTP response obtained at all) or a received
response, possibly one with an error status. -/
inductive TransportResult (α : Type) where
  | conn_failure
  | received (r : Response α)
deriving DecidableEq

/-- Modelled from the spec: the error surfaced when the retry bound is
exhausted without ever obtaining a response. -/
inductive RetryError where
  | connection_error
deriving DecidableEq

/-- Modelled from the spec: the executor's retry loop. `transport n` is
the outcome of the n-th attempt; `remaining` is the number of retries
still allowed. A received response ends the loop at once (it is never
retried, whatever its status); a connection failure is retried while the
bound allows, and the last transport failure is surfaced once the bound is
exhausted. The second component counts the attempts made. -/
def send_with_retry {α : Type} (transport : Nat → TransportResult α) :
    Nat → Nat → Except RetryError (Response α) × Nat
  | attempt, 0 =>
    match transport attempt with
    | .received r => (.ok r, attempt + 1)
    | .conn_failure => (.error .connection_error, attempt + 1)
  | attempt, remaining + 1 =>
    match transport attempt with
    | .received r => (.ok r, attempt + 1)
    | .conn_failure => send_with_retry transport (attempt + 1) remaining

/-- Modelled from the spec: issuing one request with the bounded retry
policy, starting from the first attempt. -/
def execute_with_retry {α : Type} (transport : Nat → TransportResult α)
    (max_retries : Nat) : Except RetryError (Response α) × Nat :=
  send_with_retry transport 0 max_retries

/-- Modelled from the spec: the request methods the client issues. -/
inductive Method where
  | GET
  | POST
  | PUT
  | PATCH
  | DELETE
deriving DecidableEq

/-- Modelled from the spec: one server-reported error entry of the known
"list of {code, message}" error schema (the Error model). -/
structure Error where
  code : Option String
  message : Option String
deriving DecidableEq

/-- Modelled from the spec: how the body of an error response decodes
against the known error-list schema: either a decoded list of entries, or
a body that does not decode as that schema. -/
inductive ErrorsBody where
  | decodable (errors : List Error)
  | undecodable
deriving DecidableEq

/-- Modelled from the spec: the taxonomy of typed exceptions for non-2xx
responses; StatusError is the generic fallback kind for unmapped codes. -/
inductive StatusErrorKind where
  | BadRequest
  | Unauthorized
  | Forbidden
  | NotFound
  | PreconditionFailed
  | InternalServerError
  | StatusError
deriving DecidableEq

/-- Modelled from the spec: the exact-match table from status code to
exception kind, with the generic kind as fallback. -/
def exceptions_map (status : Nat) : StatusErrorKind :=
  if status = 400 then .BadRequest
  else if status = 401 then .Unauthorized
  else if status = 403 then .Forbidden
  else if status = 404 then .NotFound
  else if status = 412 then .PreconditionFailed
  else if status = 500 then .InternalServerError
  else .StatusError

/-- Modelled from the spec: the error list attached to the raised
exception — the decoded list when the body decodes as the error schema,
the empty list otherwise. -/
def decode_errors : ErrorsBody → List Error
  | .decodable errors => errors
  | .undecodable => []

/-- Modelled from the spec: the raised exception: its kind, the numeric
status code it carries, and the attached server-reported error entries. -/
structure StatusErrorInfo where
  kind : StatusErrorKind
  status_code : Nat
  errors : List Error
deriving DecidableEq

/-- Modelled from the spec: handing a received response to the error
mapper: a status of at least 400 raises the mapped exception whatever the
request method was; a lower status passes. -/
def check_response_status (method : Method) (status : Nat)
    (body : ErrorsBody) : Except StatusErrorInfo Unit :=
  if 400 ≤ status then
    .error ⟨exceptions_map status, status, decode_errors body⟩
  else .ok ()

/-- A parsed JSON document, modelled at the granularity the auth helpers
need: an association of field names to string values, looked up
first-match like a Python dict. -/
abbrev Dict := List (String × String)

/-- Field lookup in a parsed document. -/
def dict_get (d : Dict) (k : String) : Option String :=
  (d.find? (fun kv => kv.1 == k)).map (fun kv => kv.2)

/-- Python's double-splat merge of two dicts: for every key present in
both, the second dict's value wins on lookup. -/
def dict_merge (a b : Dict) : Dict := b ++ a

/-- The HarborAuthFile model of harborapi/auth.py: a Robot with
`extra = "allow"`; `name` and `secret` are optional string fields of the
underlying Robot model, and `fields` keeps the whole parsed document. -/
structure HarborAuthFile where
  name : Option String
  secret : Option String
  fields : Dict
deriving DecidableEq

/-- Pydantic parse_obj for HarborAuthFile (the Robot model's name and
secret are optional, so parsing a document missing them succeeds with the
field unset). -/
def HarborAuthFile.parse_obj (d : Dict) : HarborAuthFile :=
  ⟨dict_get d "name", dict_get d "secret", d⟩

/-- Python falsiness of an optional string: `not x` is true exactly when
the field is unset or the empty string. -/
def py_falsy : Option String → Bool
  | none => true
  | some s => s == ""

/-- What loading finds in the auth file: either malformed JSON (json.load
raises a decode error) or a parsed document. -/
inductive AuthFileContent where
  | malformed (err : String)
  | parsed (d : Dict)
deriving DecidableEq

/-- The errors load_harbor_auth_file can raise: the JSON decode error
propagated unchanged from json.load, or the ValueError for a missing
required field. -/
inductive LoadError where
  | jsonDecodeError (err : String)
  | valueError (msg : String)
deriving DecidableEq

/-- load_harbor_auth_file of harborapi/auth.py: json.load runs without
guards (its exception passes to the caller unchanged); the parsed object
is validated with `if not authfile.name` / `if not authfile.secret`. -/
def load_harbor_auth_file (content : AuthFileContent) :
    Except LoadError HarborAuthFile :=
  match content with
  | .malformed err => .error (.jsonDecodeError err)
  | .parsed d =>
    let authfile := HarborAuthFile.parse_obj d
    match py_falsy authfile.name, py_falsy authfile.secret with
    | true, _ => .error (.valueError "Field 'name' is required")
    | false, true => .error (.valueError "Field 'secret' is required")
    | false, false => .ok authfile

/-- The filesystem as the auth helpers see it: written auth files by
path, most recent write first. -/
abbrev FS := List (String × HarborAuthFile)

/-- Whether a path already exists on the filesystem. -/
def path_exists (fs : FS) (p : String) : Bool :=
  fs.any (fun e => e.1 == p)

/-- Writing a file at a path. -/
def fs_write (fs : FS) (p : String) (a : HarborAuthFile) : FS := (p, a) :: fs

/-- Reading back the file at a path. -/
def fs_get (fs : FS) (p : String) : Option HarborAuthFile :=
  (fs.find? (fun e => e.1 == p)).map (fun e => e.2)

/-- The error save_authfile raises for an existing destination. -/
inductive SaveError where
  | fileExistsError (msg : String)
deriving DecidableEq

/-- save_authfile of harborapi/auth.py: raises FileExistsError when the
destination exists and overwrite is false (first component), otherwise
writes the serialized auth file to the destination (second component is
the resulting filesystem, unchanged when the error is raised). -/
def save_authfile (fs : FS) (path : String) (authfile : HarborAuthFile)
    (overwrite : Bool) : Option SaveError × FS :=
  if path_exists fs path && !overwrite then
    (some (.fileExistsError ("File " ++ path ++ " already exists")), fs)
  else (none, fs_write fs path authfile)

/-- new_authfile_from_robotcreate of harborapi/auth.py: parses the merge
`\x7b**robotcreated.dict(), **robotcreate.dict()\x7d` (the creation
arguments override the server result) and saves it. -/
def new_authfile_from_robotcreate (fs : FS) (path : String)
    (robotcreate robotcreated : Dict) (overwrite : Bool) :
    Option SaveError × FS :=
  let authfile := HarborAuthFile.parse_obj (dict_merge robotcreated robotcreate)
  save_authfile fs path authfile overwrite

/-- new_authfile_from_robot of harborapi/auth.py: parses the robot's dict,
then overwrites the parsed file's secret with the secret argument before
saving. -/
def new_authfile_from_robot (fs : FS) (path : String) (robot : Dict)
    (secret : String) (overwrite : Bool) : Option SaveError × FS :=
  let authfile := HarborAuthFile.parse_obj robot
  let authfile := { authfile with secret := some secret }
  save_authfile fs path authfile overwrite

/-- Modelled from the spec: the standard base64 alphabet. -/
def base64_alphabet : List Char :=
  "ABCDEFGHIJKLMNOPQRSTUVWXYZabcdefghijklmnopqrstuvwxyz0123456789+/".data

/-- The base64 digit for a 6-bit value. -/
def base64_char (n : Nat) : Char := base64_alphabet.getD n 'A'

/-- Modelled from the spec: standard base64 encoding of a byte sequence,
with padding. -/
def base64_encode : List Nat → List Char
  | [] => []
  | [a] => [base64_char (a / 4), base64_char (a % 4 * 16), '=', '=']
  | [a, b] => [base64_char (a / 4), base64_char (a % 4 * 16 + b / 16),
      base64_char (b % 16 * 4), '=']
  | a :: b :: c :: rest =>
    base64_char (a / 4) :: base64_char (a % 4 * 16 + b / 16) ::
      base64_char (b % 16 * 4 + c / 64) :: base64_char (c % 64) ::
      base64_encode rest

/-- Modelled from the spec: the authorization token derived from a
username and secret — base64 of "username:secret" (code points taken as
bytes; the credentials in play are ASCII). -/
def get_credentials (username secret : String) : String :=
  ⟨base64_encode ((username ++ ":" ++ secret).data.map Char.toNat)⟩

/-- Modelled from the spec: the configuration error raised at client
construction when no credentials are supplied. -/
inductive ConfigError where
  | no_credentials
deriving DecidableEq

/-- Modelled from the spec: credential resolution at client construction.
Precedence: username+secret when both non-empty, then the pre-encoded
token, then the credentials file (whose name and secret derive the token
the same way); none usable is a configuration error. -/
def resolve_credentials (username secret credentials : String)
    (credentials_file : Option HarborAuthFile) : Except ConfigError String :=
  if username ≠ "" ∧ secret ≠ "" then .ok (get_credentials username secret)
  else if credentials ≠ "" then .ok credentials
  else
    match credentials_file with
    | some authfile =>
      .ok (get_credentials (authfile.name.getD "") (authfile.secret.getD ""))
    | none => .error .no_credentials

/-- Strip every trailing slash. -/
def rstrip_slash (l : List Char) : List Char :=
  (l.reverse.dropWhile (fun c => c == '/')).reverse

/-- Does `s` occur at the start of `l`? -/
def starts_with : List Char → List Char → Bool
  | [], _ => true
  | _ :: _, [] => false
  | a :: s, b :: l => a == b && starts_with s l

/-- Does `s` occur at the end of `l`? -/
def ends_with (s l : List Char) : Bool := starts_with s.reverse l.reverse

/-- Does `s` occur anywhere inside `l`? -/
def has_sub (s : List Char) : List Char → Bool
  | [] => starts_with s []
  | b :: rest => starts_with s (b :: rest) || has_sub s rest

/-- Modelled from the spec: base-URL normalization. The root URL may or
may not already contain the API root segment and/or a version segment;
the stored URL always takes the form scheme://host[:port]/api/version
with no trailing slash, and a URL already carrying the API root plus some
version component — even a malformed one — is passed through rather than
corrected. -/
def normalize_url (url version : List Char) : List Char :=
  let u := rstrip_slash url
  match ends_with "/api".data u, has_sub "/api/".data u with
  | true, _ => u ++ '/' :: version
  | false, true => u
  | false, false => u ++ "/api/".data ++ version

/-- String form of normalize_url. -/
def normalize_url_str (url version : String) : String :=
  ⟨normalize_url url.data version.data⟩

/-- Modelled from the spec: the client record: the normalized base URL and
the resolved credentials, both immutable once constructed. -/
structure HarborAsyncClient where
  url : String
  credentials : String
deriving DecidableEq

/-- Modelled from the spec: client construction: credentials are resolved
once, synchronously, and the base URL is normalized; resolution failure is
a construction-time configuration error. -/
def client_init (url version username secret credentials : String)
    (credentials_file : Option HarborAuthFile) :
    Except ConfigError HarborAsyncClient :=
  match resolve_credentials username secret credentials credentials_file with
  | .error e => .error e
  | .ok creds => .ok ⟨normalize_url_str url version, creds⟩

theorem handle_pagination_step {α : Type} (r : Response α)
    (rest : List (Response α)) (acc elems : List α)
    (hst : r.status < 400) (hbody : r.body = .arr elems)
    (hnx : r.next = true) :
    handle_pagination acc (r :: rest) = handle_pagination (acc ++ elems) rest := by
  simp [handle_pagination, Nat.not_le.mpr hst, hbody, hnx]

theorem handle_pagination_chain {α : Type} (rs : List (Response α))
    (acc : List α) (hne : rs ≠ [])
    (hlink : well_linked rs = true) (hok : pages_ok rs = true) :
    handle_pagination acc rs = .ok (acc ++ (rs.map page_elems).flatten, []) := by
  induction rs generalizing acc with
  | nil => exact absurd rfl hne
  | cons r rest ih =>
    have hok' := hok
    simp only [pages_ok, List.all_cons, Bool.and_eq_true, decide_eq_true_eq] at hok'
    obtain ⟨⟨hst, harr⟩, hrest⟩ := hok'
    obtain ⟨elems, hbody⟩ : ∃ elems, r.body = .arr elems := by
      cases hb : r.body with
      | arr elems => exact ⟨elems, rfl⟩
      | nonArr => rw [hb] at harr; simp [is_array] at harr
    cases rest with
    | nil =>
      have hnx : r.next = false := by
        simpa [well_linked] using hlink
      simp [handle_pagination, Nat.not_le.mpr hst, hbody, hnx, page_elems]
    | cons s rest' =>
      have hnx : r.next = true ∧ well_linked (s :: rest') = true := by
        simpa [well_linked] using hlink
      have hrec := ih (acc ++ elems) (by simp) hnx.2 (by
        simpa [pages_ok] using hrest)
      rw [handle_pagination_step r (s :: rest') acc elems hst hbody hnx.1, hrec]
      simp [page_elems, hbody, List.append_assoc]

/-- C1: for every chain of pages in which each page links to the next
except the last and every body is a JSON array, a list-shaped GET with
link-following enabled returns the concatenation of all pages' elements,
the first page's elements first and elements appended in page-arrival
order. -/
theorem C1_pagination_concat {α : Type} (first : Response α)
    (rest : List (Response α))
    (hlink : well_linked (first :: rest) = true)
    (hok : pages_ok (first :: rest) = true) :
    paginated_get first rest true =
      .ok (.arr (((first :: rest).map page_elems).flatten), []) := by
  have hok' := hok
  simp only [pages_ok, List.all_cons, Bool.and_eq_true, decide_eq_true_eq] at hok'
  obtain ⟨⟨hst, harr⟩, hrest⟩ := hok'
  obtain ⟨elems, hbody⟩ : ∃ elems, first.body = .arr elems := by
    cases hb : first.body with
    | arr elems => exact ⟨elems, rfl⟩
    | nonArr => rw [hb] at harr; simp [is_array] at harr
  cases rest with
  | nil =>
    have hnx : first.next = false := by
      simpa [well_linked] using hlink
    simp [paginated_get, Nat.not_le.mpr hst, hbody, hnx, page_elems]
  | cons s rest' =>
    have hnx : first.next = true ∧ well_linked (s :: rest') = true := by
      simpa [well_linked] using hlink
    have hchain := handle_pagination_chain (s :: rest') elems (by simp)
      hnx.2 (by simpa [pages_ok] using hrest)
    simp only [paginated_get, hbody]
    rw [if_neg (Nat.not_le.mpr hst)]
    simp only [hnx.1, Bool.and_self, if_true, hchain, List.map_cons,
      List.flatten_cons, page_elems, hbody]

/-- Witness for C1 at the test suite's two-page example: four users across
two pages, concatenated in order. -/
theorem C1_pagination_concat_witness :
    paginated_get
      (⟨200, .arr ["user1", "user2"], true⟩ : Response String)
      [⟨200, .arr ["user3", "user4"], false⟩] true =
      .ok (.arr ["user1", "user2", "user3", "user4"], []) := by
  have h := C1_pagination_concat
    (⟨200, .arr ["user1", "user2"], true⟩ : Response String)
    [⟨200, .arr ["user3", "user4"], false⟩] (by decide) (by decide)
  simpa using h

theorem handle_pagination_stops {α : Type} (good : List (Response α))
    (bad : Response α) (after : List (Response α)) (acc : List α)
    (hgood : ∀ p ∈ good, p.status < 400 ∧ is_array p.body = true ∧ p.next = true)
    (hbadst : bad.status < 400) (hbad : bad.body = .nonArr) :
    handle_pagination acc (good ++ bad :: after) =
      .ok (acc ++ (good.map page_elems).flatten, [pagination_anomaly_msg]) := by
  induction good generalizing acc with
  | nil =>
    simp [handle_pagination, Nat.not_le.mpr hbadst, hbad]
  | cons g good' ih =>
    obtain ⟨hst, harr, hnx⟩ := hgood g (by simp)
    obtain ⟨elems, hbody⟩ : ∃ elems, g.body = .arr elems := by
      cases hb : g.body with
      | arr elems => exact ⟨elems, rfl⟩
      | nonArr => rw [hb] at harr; simp [is_array] at harr
    rw [List.cons_append,
      handle_pagination_step g (good' ++ bad :: after) acc elems hst hbody hnx,
      ih (acc ++ elems) (fun p hp => hgood p (List.mem_cons_of_mem _ hp))]
    simp [page_elems, hbody, List.append_assoc]

/-- C2: when some continuation-linked follow-up page's body is not a JSON
array, the follower stops following (any pages the server would serve
afterwards are never consumed), logs the anomaly, and returns the elements
accumulated from all preceding array pages as a successful result. -/
theorem C2_pagination_non_array_stops {α : Type} (first : Response α)
    (mid : List (Response α)) (bad : Response α) (after : List (Response α))
    (hgood : ∀ p ∈ first :: mid,
      p.status < 400 ∧ is_array p.body = true ∧ p.next = true)
    (hbadst : bad.status < 400) (hbad : bad.body = .nonArr) :
    paginated_get first (mid ++ bad :: after) true =
      .ok (.arr (((first :: mid).map page_elems).flatten),
        [pagination_anomaly_msg]) := by
  obtain ⟨hst, harr, hnx⟩ := hgood first (by simp)
  obtain ⟨elems, hbody⟩ : ∃ elems, first.body = .arr elems := by
    cases hb : first.body with
    | arr elems => exact ⟨elems, rfl⟩
    | nonArr => rw [hb] at harr; simp [is_array] at harr
  have hchain := handle_pagination_stops mid bad after elems
    (fun p hp => hgood p (List.mem_cons_of_mem _ hp)) hbadst hbad
  simp only [paginated_get, hbody]
  rw [if_neg (Nat.not_le.mpr hst)]
  simp only [hnx, Bool.and_self, if_true, hchain, List.map_cons,
    List.flatten_cons, page_elems, hbody]

/-- Witness for C2 at the test suite's example: an array first page
followed by an object-bodied second page yields only the first page's
elements plus the anomaly log line. -/
theorem C2_pagination_non_array_stops_witness :
    paginated_get
      (⟨200, .arr ["user1", "user2"], true⟩ : Response String)
      [⟨200, .nonArr, false⟩] true =
      .ok (.arr ["user1", "user2"], [pagination_anomaly_msg]) := by
  have h := C2_pagination_non_array_stops
    (⟨200, .arr ["user1", "user2"], true⟩ : Response String)
    [] (⟨200, .nonArr, false⟩ : Response String) []
    (by intro p hp; simp at hp; subst hp; refine ⟨by decide, by decide, by decide⟩)
    (by decide) rfl
  simpa using h

theorem send_with_retry_first_received {α : Type}
    (transport : Nat → TransportResult α) (j attempt remaining : Nat)
    (r : Response α) (hj : j ≤ remaining)
    (hfail : ∀ k, k < j → transport (attempt + k) = .conn_failure)
    (hrecv : transport (attempt + j) = .received r) :
    send_with_retry transport attempt remaining = (.ok r, attempt + j + 1) := by
  induction j generalizing attempt remaining with
  | zero =>
    cases remaining with
    | zero => simp [send_with_retry, show transport attempt = .received r by simpa using hrecv]
    | succ n => simp [send_with_retry, show transport attempt = .received r by simpa using hrecv]
  | succ j ih =>
    obtain ⟨n, rfl⟩ : ∃ n, remaining = n + 1 := ⟨remaining - 1, by omega⟩
    have h0 : transport attempt = .conn_failure := by
      simpa using hfail 0 (by omega)
    have hrec := ih (attempt + 1) n (by omega)
      (fun k hk => by
        have := hfail (k + 1) (by omega)
        simpa [Nat.add_assoc, Nat.add_comm 1 k] using this)
      (by simpa [Nat.add_assoc, Nat.add_comm 1 j] using hrecv)
    simp only [send_with_retry, h0, hrec, Prod.mk.injEq]
    exact ⟨trivial, by omega⟩

theorem send_with_retry_exhausted {α : Type}
    (transport : Nat → TransportResult α) (attempt remaining : Nat)
    (hfail : ∀ k, k ≤ remaining → transport (attempt + k) = .conn_failure) :
    send_with_retry transport attempt remaining =
      (.error .connection_error, attempt + remaining + 1) := by
  induction remaining generalizing attempt with
  | zero =>
    have h0 : transport attempt = .conn_failure := by
      simpa using hfail 0 (by omega)
    simp [send_with_retry, h0]
  | succ n ih =>
    have h0 : transport attempt = .conn_failure := by
      simpa using hfail 0 (by omega)
    have hrec := ih (attempt + 1) (fun k hk => by
      have := hfail (k + 1) (by omega)
      simpa [Nat.add_assoc, Nat.add_comm 1 k] using this)
    simp only [send_with_retry, h0, hrec, Prod.mk.injEq]
    exact ⟨trivial, by omega⟩

/-- C3: the executor retries only connection-level failures up to the
retry bound and never retries a received response, even one with an error
status. First conjunct: if the first j attempts fail at the transport
level and attempt j obtains a response (of any status), and j is within
the bound, the call returns that response with no error after exactly
j + 1 attempts — so a transport failure that resolves before the bound is
exhausted yields eventual success, and a received response is never
retried. Second conjunct: if every attempt within the bound fails at the
transport level, the transport failure is surfaced after exhausting the
bound. -/
theorem C3_retry_policy {α : Type} :
    (∀ (transport : Nat → TransportResult α) (j max_retries : Nat)
      (r : Response α), j ≤ max_retries →
      (∀ k, k < j → transport k = .conn_failure) →
      transport j = .received r →
      execute_with_retry transport max_retries = (.ok r, j + 1)) ∧
    (∀ (transport : Nat → TransportResult α) (max_retries : Nat),
      (∀ k, k ≤ max_retries → transport k = .conn_failure) →
      execute_with_retry transport max_retries =
        (.error .connection_error, max_retries + 1)) := by
  constructor
  · intro transport j max_retries r hj hfail hrecv
    have h := send_with_retry_first_received transport j 0 max_retries r hj
      (fun k hk => by simpa using hfail k hk) (by simpa using hrecv)
    simpa [execute_with_retry] using h
  · intro transport max_retries hfail
    have h := send_with_retry_exhausted transport 0 max_retries
      (fun k hk => by simpa using hfail k hk)
    simpa [execute_with_retry] using h

/-- Witness for C3: a transport that fails on the first two attempts and
serves a response on the third, under a bound of three retries, succeeds
after exactly three attempts; a transport that always fails exhausts a
bound of two retries after three attempts. -/
theorem C3_retry_policy_witness :
    execute_with_retry
      (fun k => if k < 2 then .conn_failure
        else .received (⟨200, .arr ([] : List Nat), false⟩ : Response Nat)) 3 =
      (.ok (⟨200, .arr ([] : List Nat), false⟩ : Response Nat), 3) ∧
    execute_with_retry (fun _ => (.conn_failure : TransportResult Nat)) 2 =
      (.error .connection_error, 3) := by
  constructor
  · exact (C3_retry_policy (α := Nat)).1
      (fun k => if k < 2 then .conn_failure
        else .received (⟨200, .arr ([] : List Nat), false⟩ : Response Nat))
      2 3 (⟨200, .arr ([] : List Nat), false⟩ : Response Nat)
      (by omega) (by decide) (by decide)
  · exact (C3_retry_policy (α := Nat)).2
      (fun _ => (.conn_failure : TransportResult Nat)) 2 (fun k hk => rfl)

/-- C4: for every received response with status at least 400 and every
request method, an exception is raised (even when the body does not decode
as the error-list schema, with an empty error list attached in that case);
its kind is selected by exact match on the status code with the generic
kind for unmapped codes, and the numeric status code is recoverable from
the raised error. -/
theorem C4_status_error_mapping (method : Method) (status : Nat)
    (body : ErrorsBody) (hst : 400 ≤ status) :
    ∃ e : StatusErrorInfo,
      check_response_status method status body = .error e ∧
      e.status_code = status ∧
      (status = 400 → e.kind = .BadRequest) ∧
      (status = 401 → e.kind = .Unauthorized) ∧
      (status = 403 → e.kind = .Forbidden) ∧
      (status = 404 → e.kind = .NotFound) ∧
      (status = 412 → e.kind = .PreconditionFailed) ∧
      (status = 500 → e.kind = .InternalServerError) ∧
      (status ≠ 400 → status ≠ 401 → status ≠ 403 → status ≠ 404 →
        status ≠ 412 → status ≠ 500 → e.kind = .StatusError) ∧
      (body = .undecodable → e.errors = []) ∧
      (∀ es, body = .decodable es → e.errors = es) := by
  refine ⟨⟨exceptions_map status, status, decode_errors body⟩, ?_, rfl,
    ?_, ?_, ?_, ?_, ?_, ?_, ?_, ?_, ?_⟩
  · simp [check_response_status, hst]
  all_goals first
  | (intro h; subst h; rfl)
  | (intro h1 h2 h3 h4 h5 h6
     simp [exceptions_map, h1, h2, h3, h4, h5, h6])
  | (intro es h; subst h; rfl)

/-- Witness for C4 at status 404, method GET, and an undecodable body. -/
theorem C4_status_error_mapping_witness :
    (400 ≤ 404) ∧
    ∃ e : StatusErrorInfo,
      check_response_status .GET 404 .undecodable = .error e ∧
      e.status_code = 404 ∧
      ((404 : Nat) = 400 → e.kind = .BadRequest) ∧
      ((404 : Nat) = 401 → e.kind = .Unauthorized) ∧
      ((404 : Nat) = 403 → e.kind = .Forbidden) ∧
      ((404 : Nat) = 404 → e.kind = .NotFound) ∧
      ((404 : Nat) = 412 → e.kind = .PreconditionFailed) ∧
      ((404 : Nat) = 500 → e.kind = .InternalServerError) ∧
      ((404 : Nat) ≠ 400 → (404 : Nat) ≠ 401 → (404 : Nat) ≠ 403 →
        (404 : Nat) ≠ 404 → (404 : Nat) ≠ 412 → (404 : Nat) ≠ 500 →
        e.kind = .StatusError) ∧
      ((ErrorsBody.undecodable = .undecodable) → e.errors = []) ∧
      (∀ es, ErrorsBody.undecodable = .decodable es → e.errors = es) :=
  ⟨by omega, C4_status_error_mapping .GET 404 .undecodable (by omega)⟩

/-- C5: (1) when username and secret are both non-empty they determine the
resolved authorization token — base64 of username:secret — regardless of
any simultaneously supplied pre-encoded token or credentials file; (2) the
explicit token takes precedence over the credentials file when the
username/secret pair does not apply; (3) the token is fixed at client
construction: a constructed client's credentials are exactly what the
resolver produced from the construction inputs. -/
theorem C5_credential_precedence :
    (∀ (url version username secret credentials : String)
      (file : Option HarborAuthFile), username ≠ "" → secret ≠ "" →
      client_init url version username secret credentials file =
        .ok ⟨normalize_url_str url version, get_credentials username secret⟩ ∧
      get_credentials username secret =
        ⟨base64_encode ((username ++ ":" ++ secret).data.map Char.toNat)⟩) ∧
    (∀ (url version username secret credentials : String)
      (file : Option HarborAuthFile), (username = "" ∨ secret = "") →
      credentials ≠ "" →
      client_init url version username secret credentials file =
        .ok ⟨normalize_url_str url version, credentials⟩) ∧
    (∀ (url version username secret credentials : String)
      (file : Option HarborAuthFile) (c : HarborAsyncClient),
      client_init url version username secret credentials file = .ok c →
      resolve_credentials username secret credentials file =
        .ok c.credentials) := by
  refine ⟨?_, ?_, ?_⟩
  · intro url version username secret credentials file hu hs
    have hres : resolve_credentials username secret credentials file =
        .ok (get_credentials username secret) := by
      simp [resolve_credentials, hu, hs]
    exact ⟨by simp [client_init, hres], rfl⟩
  · intro url version username secret credentials file hus hcred
    have hres : resolve_credentials username secret credentials file =
        .ok credentials := by
      rw [resolve_credentials.eq_def,
        if_neg (by rcases hus with h | h <;> simp [h]), if_pos hcred]
    simp [client_init, hres]
  · intro url version username secret credentials file c hc
    cases hres : resolve_credentials username secret credentials file with
    | error e => simp [client_init, hres] at hc
    | ok creds =>
      simp only [client_init, hres] at hc
      cases hc
      rfl

/-- Witness for C5: both credentials resolve to the base64 token
dXNlcm5hbWU6c2VjcmV0 even with a simultaneous explicit token, and an
explicit token wins when the pair is incomplete. -/
theorem C5_credential_precedence_witness :
    (client_init "https://harbor.example.com" "v2.0" "username" "secret"
        "token" none =
      .ok ⟨normalize_url_str "https://harbor.example.com" "v2.0",
        get_credentials "username" "secret"⟩ ∧
      get_credentials "username" "secret" =
        ⟨base64_encode (("username" ++ ":" ++ "secret").data.map
          Char.toNat)⟩) ∧
    get_credentials "username" "secret" = "dXNlcm5hbWU6c2VjcmV0" ∧
    client_init "https://harbor.example.com" "v2.0" "" "" "token" none =
      .ok ⟨normalize_url_str "https://harbor.example.com" "v2.0", "token"⟩ :=
  ⟨C5_credential_precedence.1 "https://harbor.example.com" "v2.0" "username"
      "secret" "token" none (by decide) (by decide),
    by decide,
    C5_credential_precedence.2.1 "https://harbor.example.com" "v2.0" "" ""
      "token" none (Or.inl rfl) (by decide)⟩

theorem starts_with_iff : ∀ (s l : List Char),
    starts_with s l = true ↔ ∃ t, l = s ++ t
  | [], l => by
    simp only [starts_with, List.nil_append, true_iff]
    exact ⟨l, rfl⟩
  | a :: s, [] => by
    simp [starts_with]
  | a :: s, b :: l => by
    rw [starts_with, Bool.and_eq_true, beq_iff_eq, starts_with_iff s l]
    constructor
    · rintro ⟨rfl, t, rfl⟩
      exact ⟨t, rfl⟩
    · rintro ⟨t, h⟩
      injection h with h1 h2
      exact ⟨h1.symm, t, h2⟩

theorem starts_with_self_append (s t : List Char) :
    starts_with s (s ++ t) = true :=
  (starts_with_iff s (s ++ t)).mpr ⟨t, rfl⟩

theorem ends_with_iff (s l : List Char) :
    ends_with s l = true ↔ ∃ t, l = t ++ s := by
  rw [ends_with, starts_with_iff]
  constructor
  · rintro ⟨t, ht⟩
    refine ⟨t.reverse, ?_⟩
    have h := congrArg List.reverse ht
    simpa using h
  · rintro ⟨t, rfl⟩
    exact ⟨t.reverse, by simp⟩

theorem ends_with_append_self (t s : List Char) :
    ends_with s (t ++ s) = true :=
  (ends_with_iff s (t ++ s)).mpr ⟨t, rfl⟩

theorem has_sub_of_starts (s l : List Char) (h : starts_with s l = true) :
    has_sub s l = true := by
  cases l with
  | nil => simpa [has_sub] using h
  | cons b rest => simp [has_sub, h]

theorem has_sub_cons (s : List Char) (b : Char) (rest : List Char)
    (h : has_sub s rest = true) : has_sub s (b :: rest) = true := by
  simp [has_sub, h]

theorem has_sub_parts (s x y : List Char) : has_sub s (x ++ s ++ y) = true := by
  induction x with
  | nil => simpa using has_sub_of_starts s (s ++ y) (starts_with_self_append s y)
  | cons a x ih => simpa using has_sub_cons s a _ (by simpa using ih)

theorem dropWhile_idem (p : Char → Bool) :
    ∀ l : List Char, (l.dropWhile p).dropWhile p = l.dropWhile p
  | [] => rfl
  | a :: t => by
    by_cases h : p a = true
    · simp [List.dropWhile_cons, h, dropWhile_idem p t]
    · simp [List.dropWhile_cons, h]

theorem rstrip_idem (l : List Char) :
    rstrip_slash (rstrip_slash l) = rstrip_slash l := by
  unfold rstrip_slash
  rw [List.reverse_reverse, dropWhile_idem]

theorem rstrip_append_no_slash (w v : List Char) (h1 : '/' ∉ v)
    (h2 : v ≠ []) : rstrip_slash (w ++ v) = w ++ v := by
  obtain ⟨h, t, hv⟩ : ∃ h t, v.reverse = h :: t := by
    cases hv : v.reverse with
    | nil => exact absurd (by simpa using congrArg List.reverse hv) h2
    | cons h t => exact ⟨h, t, rfl⟩
  have hh : h ∈ v := by
    rw [← List.mem_reverse, hv]
    simp
  have hne : (h == '/') = false := by
    simp only [beq_eq_false_iff_ne, ne_eq]
    intro he
    rw [he] at hh
    exact h1 hh
  unfold rstrip_slash
  rw [List.reverse_append, hv, List.cons_append, List.dropWhile_cons, hne]
  rw [← List.cons_append, ← hv, ← List.reverse_append]
  simp

theorem rstrip_append_slash (l : List Char) :
    rstrip_slash (l ++ ['/']) = rstrip_slash l := by
  unfold rstrip_slash
  rw [List.reverse_append]
  simp [List.dropWhile_cons]

theorem starts_ipa_slash_false (r z : List Char) (h1 : '/' ∉ r)
    (h2 : r ≠ []) (h3 : r ≠ ['i', 'p', 'a']) :
    starts_with ['i', 'p', 'a', '/'] (r ++ '/' :: z) = false := by
  match r, h2, h3 with
  | [a], _, _ =>
    have hp : ('p' == '/') = false := by decide
    simp [starts_with, hp]
  | [a, b], _, _ =>
    have hp : ('a' == '/') = false := by decide
    simp [starts_with, hp]
  | [a, b, c], _, h3 =>
    refine Bool.eq_false_iff.mpr fun h => ?_
    simp only [List.cons_append, List.nil_append, starts_with,
      Bool.and_eq_true, beq_iff_eq] at h
    exact h3 (by rw [← h.1, ← h.2.1, ← h.2.2.1])
  | a :: b :: c :: d :: t, _, _ =>
    have hd : ('/' == d) = false := by
      simp only [beq_eq_false_iff_ne, ne_eq]
      intro he
      exact h1 (by rw [he]; simp)
    simp [starts_with, hd]

theorem ends_api_false (w v : List Char) (h1 : '/' ∉ v) (h2 : v ≠ [])
    (h3 : v ≠ ['a', 'p', 'i']) :
    ends_with "/api".data (w ++ '/' :: v) = false := by
  unfold ends_with
  have hrw : (w ++ '/' :: v).reverse = v.reverse ++ '/' :: w.reverse := by
    simp
  rw [hrw, show "/api".data.reverse = ['i', 'p', 'a', '/'] from rfl]
  apply starts_ipa_slash_false
  · simpa using h1
  · simpa using h2
  · intro hr
    exact h3 (by simpa using congrArg List.reverse hr)

theorem normalize_branch_api (url v : List Char)
    (h : ends_with "/api".data (rstrip_slash url) = true) :
    normalize_url url v = rstrip_slash url ++ '/' :: v := by
  simp only [normalize_url, h]

theorem normalize_branch_through (url v : List Char)
    (h1 : ends_with "/api".data (rstrip_slash url) = false)
    (h2 : has_sub "/api/".data (rstrip_slash url) = true) :
    normalize_url url v = rstrip_slash url := by
  simp only [normalize_url, h1, h2]

theorem normalize_branch_append (url v : List Char)
    (h1 : ends_with "/api".data (rstrip_slash url) = false)
    (h2 : has_sub "/api/".data (rstrip_slash url) = false) :
    normalize_url url v = rstrip_slash url ++ "/api/".data ++ v := by
  simp only [normalize_url, h1, h2]

theorem normalize_plain_root (base v : List Char)
    (hb1 : rstrip_slash base = base)
    (hb2 : ends_with "/api".data base = false)
    (hb3 : has_sub "/api/".data base = false) :
    normalize_url base v = base ++ "/api/".data ++ v := by
  have e1 : ends_with "/api".data (rstrip_slash base) = false := by
    rw [hb1]; exact hb2
  have e2 : has_sub "/api/".data (rstrip_slash base) = false := by
    rw [hb1]; exact hb3
  rw [normalize_branch_append base v e1 e2, hb1]

theorem rstrip_base_api (base : List Char) :
    rstrip_slash (base ++ "/api".data) = base ++ "/api".data := by
  have heq : base ++ "/api".data = (base ++ ['/']) ++ ['a', 'p', 'i'] := by
    simp only [List.append_assoc]
    rfl
  rw [heq]
  exact rstrip_append_no_slash (base ++ ['/']) ['a', 'p', 'i']
    (by decide) (by decide)

theorem normalize_api_root (base v : List Char) :
    normalize_url (base ++ "/api".data) v = base ++ "/api/".data ++ v := by
  have e1 : ends_with "/api".data (rstrip_slash (base ++ "/api".data)) = true := by
    rw [rstrip_base_api]
    exact ends_with_append_self base "/api".data
  rw [normalize_branch_api _ v e1, rstrip_base_api]
  simp only [List.append_assoc]
  rfl

theorem normalize_api_root_slash (base v : List Char) :
    normalize_url (base ++ "/api/".data) v = base ++ "/api/".data ++ v := by
  have heq : base ++ "/api/".data = (base ++ "/api".data) ++ ['/'] := by
    simp only [List.append_assoc]
    rfl
  have hr : rstrip_slash (base ++ "/api/".data) = base ++ "/api".data := by
    rw [heq, rstrip_append_slash, rstrip_base_api]
  have e1 : ends_with "/api".data (rstrip_slash (base ++ "/api/".data)) = true := by
    rw [hr]
    exact ends_with_append_self base "/api".data
  rw [normalize_branch_api _ v e1, hr]
  simp only [List.append_assoc]
  rfl

theorem normalize_versioned_through (base w v : List Char) (hw1 : '/' ∉ w)
    (hw2 : w ≠ []) (hw3 : w ≠ "api".data) :
    normalize_url (base ++ "/api/".data ++ w) v = base ++ "/api/".data ++ w := by
  have hr : rstrip_slash (base ++ "/api/".data ++ w) =
      base ++ "/api/".data ++ w :=
    rstrip_append_no_slash (base ++ "/api/".data) w hw1 hw2
  have heq : base ++ "/api/".data ++ w = (base ++ "/api".data) ++ '/' :: w := by
    simp only [List.append_assoc]
    rfl
  have e1 : ends_with "/api".data (rstrip_slash (base ++ "/api/".data ++ w)) =
      false := by
    rw [hr, heq]
    exact ends_api_false (base ++ "/api".data) w hw1 hw2 hw3
  have e2 : has_sub "/api/".data (rstrip_slash (base ++ "/api/".data ++ w)) =
      true := by
    rw [hr]
    exact has_sub_parts "/api/".data base w
  rw [normalize_branch_through _ v e1 e2, hr]

theorem normalize_versioned_trailing (base v : List Char) (hv1 : '/' ∉ v)
    (hv2 : v ≠ []) (hv3 : v ≠ "api".data) :
    normalize_url (base ++ "/api/".data ++ v ++ ['/']) v =
      base ++ "/api/".data ++ v := by
  have hr : rstrip_slash (base ++ "/api/".data ++ v ++ ['/']) =
      base ++ "/api/".data ++ v := by
    rw [rstrip_append_slash]
    exact rstrip_append_no_slash (base ++ "/api/".data) v hv1 hv2
  have heq : base ++ "/api/".data ++ v = (base ++ "/api".data) ++ '/' :: v := by
    simp only [List.append_assoc]
    rfl
  have e1 : ends_with "/api".data
      (rstrip_slash (base ++ "/api/".data ++ v ++ ['/'])) = false := by
    rw [hr, heq]
    exact ends_api_false (base ++ "/api".data) v hv1 hv2 hv3
  have e2 : has_sub "/api/".data
      (rstrip_slash (base ++ "/api/".data ++ v ++ ['/'])) = true := by
    rw [hr]
    exact has_sub_parts "/api/".data base v
  rw [normalize_branch_through _ v e1 e2, hr]

theorem normalize_url_idem (url v : List Char) (hv1 : '/' ∉ v) (hv2 : v ≠ [])
    (hv3 : v ≠ "api".data) :
    normalize_url (normalize_url url v) v = normalize_url url v := by
  by_cases hA : ends_with "/api".data (rstrip_slash url) = true
  · obtain ⟨t, ht⟩ := (ends_with_iff _ _).mp hA
    rw [normalize_branch_api url v hA]
    have hrn : rstrip_slash (rstrip_slash url ++ '/' :: v) =
        rstrip_slash url ++ '/' :: v := by
      have h := rstrip_append_no_slash (rstrip_slash url ++ ['/']) v hv1 hv2
      simpa [List.append_assoc] using h
    have e1 : ends_with "/api".data
        (rstrip_slash (rstrip_slash url ++ '/' :: v)) = false := by
      rw [hrn]
      exact ends_api_false (rstrip_slash url) v hv1 hv2 hv3
    have e2 : has_sub "/api/".data
        (rstrip_slash (rstrip_slash url ++ '/' :: v)) = true := by
      rw [hrn, ht]
      have heq : (t ++ "/api".data) ++ '/' :: v = t ++ "/api/".data ++ v := by
        simp only [List.append_assoc]
        rfl
      rw [heq]
      exact has_sub_parts "/api/".data t v
    rw [normalize_branch_through _ v e1 e2, hrn]
  · have hA' : ends_with "/api".data (rstrip_slash url) = false :=
      Bool.eq_false_iff.mpr hA
    by_cases hB : has_sub "/api/".data (rstrip_slash url) = true
    · rw [normalize_branch_through url v hA' hB]
      have hrn := rstrip_idem url
      have e1 : ends_with "/api".data
          (rstrip_slash (rstrip_slash url)) = false := by
        rw [hrn]; exact hA'
      have e2 : has_sub "/api/".data
          (rstrip_slash (rstrip_slash url)) = true := by
        rw [hrn]; exact hB
      rw [normalize_branch_through _ v e1 e2, hrn]
    · have hB' : has_sub "/api/".data (rstrip_slash url) = false :=
        Bool.eq_false_iff.mpr hB
      rw [normalize_branch_append url v hA' hB']
      have hrn : rstrip_slash (rstrip_slash url ++ "/api/".data ++ v) =
          rstrip_slash url ++ "/api/".data ++ v :=
        rstrip_append_no_slash (rstrip_slash url ++ "/api/".data) v hv1 hv2
      have heq : rstrip_slash url ++ "/api/".data ++ v =
          (rstrip_slash url ++ "/api".data) ++ '/' :: v := by
        simp only [List.append_assoc]
        rfl
      have e1 : ends_with "/api".data
          (rstrip_slash (rstrip_slash url ++ "/api/".data ++ v)) = false := by
        rw [hrn, heq]
        exact ends_api_false (rstrip_slash url ++ "/api".data) v hv1 hv2 hv3
      have e2 : has_sub "/api/".data
          (rstrip_slash (rstrip_slash url ++ "/api/".data ++ v)) = true := by
        rw [hrn]
        exact has_sub_parts "/api/".data (rstrip_slash url) v
      rw [normalize_branch_through _ v e1 e2, hrn]

/-- C6: the stored base URL is normalized to the canonical form
base/api/version with no trailing slash and no duplicated /api segment —
whether the supplied root URL carried no API segment, a bare /api segment
(with or without trailing slash), or an already-versioned segment with a
trailing slash; a URL whose version component is present but malformed is
passed through unchanged; and normalization is idempotent: normalizing an
already-normalized URL yields the same URL. -/
theorem C6_url_normalization :
    (∀ base v : List Char, rstrip_slash base = base →
      ends_with "/api".data base = false →
      has_sub "/api/".data base = false →
      normalize_url base v = base ++ "/api/".data ++ v) ∧
    (∀ base v : List Char,
      normalize_url (base ++ "/api".data) v = base ++ "/api/".data ++ v) ∧
    (∀ base v : List Char,
      normalize_url (base ++ "/api/".data) v = base ++ "/api/".data ++ v) ∧
    (∀ base w v : List Char, '/' ∉ w → w ≠ [] → w ≠ "api".data →
      normalize_url (base ++ "/api/".data ++ w) v =
        base ++ "/api/".data ++ w) ∧
    (∀ base v : List Char, '/' ∉ v → v ≠ [] → v ≠ "api".data →
      normalize_url (base ++ "/api/".data ++ v ++ ['/']) v =
        base ++ "/api/".data ++ v) ∧
    (∀ url v : List Char, '/' ∉ v → v ≠ [] → v ≠ "api".data →
      normalize_url (normalize_url url v) v = normalize_url url v) :=
  ⟨normalize_plain_root, normalize_api_root, normalize_api_root_slash,
    normalize_versioned_through, normalize_versioned_trailing,
    normalize_url_idem⟩

/-- Witness for C6 at the test table's URLs with version v2.0, including
the malformed-version row /api/v and an idempotence instance. -/
theorem C6_url_normalization_witness :
    (rstrip_slash "https://harbor.example.com".data =
        "https://harbor.example.com".data ∧
      ends_with "/api".data "https://harbor.example.com".data = false ∧
      has_sub "/api/".data "https://harbor.example.com".data = false ∧
      normalize_url "https://harbor.example.com".data "v2.0".data =
        "https://harbor.example.com".data ++ "/api/".data ++ "v2.0".data) ∧
    normalize_url_str "https://harbor.example.com" "v2.0" =
      "https://harbor.example.com/api/v2.0" ∧
    normalize_url_str "https://harbor.example.com/api" "v2.0" =
      "https://harbor.example.com/api/v2.0" ∧
    normalize_url_str "https://harbor.example.com/api/" "v2.0" =
      "https://harbor.example.com/api/v2.0" ∧
    normalize_url_str "https://harbor.example.com/api/v2.0/" "v2.0" =
      "https://harbor.example.com/api/v2.0" ∧
    normalize_url_str "https://harbor.example.com/api/v" "v2.0" =
      "https://harbor.example.com/api/v" ∧
    normalize_url
        (normalize_url "https://harbor.example.com".data "v2.0".data)
        "v2.0".data =
      normalize_url "https://harbor.example.com".data "v2.0".data :=
  ⟨⟨by decide, by decide, by decide,
      C6_url_normalization.1 "https://harbor.example.com".data "v2.0".data
        (by decide) (by decide) (by decide)⟩,
    by decide, by decide, by decide, by decide, by decide,
    C6_url_normalization.2.2.2.2.2 "https://harbor.example.com".data
      "v2.0".data (by decide) (by decide) (by decide)⟩

theorem dict_get_cons (kv : String × String) (rest : Dict) (k : String) :
    dict_get (kv :: rest) k =
      if kv.1 == k then some kv.2 else dict_get rest k := by
  cases hk : (kv.1 == k) with
  | true => simp [dict_get, List.find?, hk]
  | false => simp [dict_get, List.find?, hk]

theorem dict_get_merge_of_right : ∀ (a b : Dict) (k : String),
    (dict_get b k).isSome = true → dict_get (dict_merge a b) k = dict_get b k
  | a, [], k => by
    intro h
    simp [dict_get] at h
  | a, kv :: rest, k => by
    intro h
    rw [dict_get_cons] at h
    show dict_get (kv :: (rest ++ a)) k = dict_get (kv :: rest) k
    rw [dict_get_cons, dict_get_cons]
    cases hk : (kv.1 == k) with
    | true => simp [hk]
    | false =>
      simp only [hk, Bool.false_eq_true, if_false] at h ⊢
      exact dict_get_merge_of_right a rest k h

theorem dict_get_merge_of_left : ∀ (a b : Dict) (k : String),
    dict_get b k = none → dict_get (dict_merge a b) k = dict_get a k
  | a, [], k => by
    intro h
    simp [dict_merge, dict_get]
  | a, kv :: rest, k => by
    intro h
    rw [dict_get_cons] at h
    show dict_get (kv :: (rest ++ a)) k = dict_get a k
    rw [dict_get_cons]
    cases hk : (kv.1 == k) with
    | true => simp [hk] at h
    | false =>
      simp only [hk, Bool.false_eq_true, if_false] at h ⊢
      exact dict_get_merge_of_left a rest k h

theorem load_parsed_name_falsy (d : Dict)
    (h : py_falsy (dict_get d "name") = true) :
    load_harbor_auth_file (.parsed d) =
      .error (.valueError "Field 'name' is required") := by
  simp only [load_harbor_auth_file, HarborAuthFile.parse_obj, h]

theorem load_parsed_secret_falsy (d : Dict)
    (h1 : py_falsy (dict_get d "name") = false)
    (h2 : py_falsy (dict_get d "secret") = true) :
    load_harbor_auth_file (.parsed d) =
      .error (.valueError "Field 'secret' is required") := by
  simp only [load_harbor_auth_file, HarborAuthFile.parse_obj, h1, h2]

theorem load_parsed_ok (d : Dict)
    (h1 : py_falsy (dict_get d "name") = false)
    (h2 : py_falsy (dict_get d "secret") = false) :
    load_harbor_auth_file (.parsed d) = .ok (HarborAuthFile.parse_obj d) := by
  simp only [load_harbor_auth_file, HarborAuthFile.parse_obj, h1, h2]

/-- C7 counterexample: a parsed document in which both name and secret
fields are present (so the file does not lack them) and the JSON was well
formed, yet load_harbor_auth_file does not return the parsed auth file —
it raises the required-field error because the name value is empty. -/
theorem C7_auth_load_counterexample :
    load_harbor_auth_file (.parsed [("name", ""), ("secret", "s")]) =
      .error (.valueError "Field 'name' is required") ∧
    load_harbor_auth_file (.parsed [("name", ""), ("secret", "s")]) ≠
      .ok (HarborAuthFile.parse_obj [("name", ""), ("secret", "s")]) := by
  refine ⟨rfl, ?_⟩
  rw [show load_harbor_auth_file (.parsed [("name", ""), ("secret", "s")]) =
    .error (.valueError "Field 'name' is required") from rfl]
  intro h
  exact Except.noConfusion h

/-- C7 (amended): load_harbor_auth_file raises the descriptive validation
error naming the field when the loaded file lacks the required name or
secret field or supplies it with a falsy (empty) value, propagates a JSON
parse error from a malformed file unchanged without catching it, and
returns the parsed auth file when both name and secret are present and
non-empty. -/
theorem C7_auth_load :
    (∀ err : String, load_harbor_auth_file (.malformed err) =
      .error (.jsonDecodeError err)) ∧
    (∀ d : Dict, py_falsy (dict_get d "name") = true →
      load_harbor_auth_file (.parsed d) =
        .error (.valueError "Field 'name' is required")) ∧
    (∀ d : Dict, py_falsy (dict_get d "name") = false →
      py_falsy (dict_get d "secret") = true →
      load_harbor_auth_file (.parsed d) =
        .error (.valueError "Field 'secret' is required")) ∧
    (∀ d : Dict, py_falsy (dict_get d "name") = false →
      py_falsy (dict_get d "secret") = false →
      load_harbor_auth_file (.parsed d) =
        .ok (HarborAuthFile.parse_obj d)) := by
  exact ⟨fun err => rfl, load_parsed_name_falsy, load_parsed_secret_falsy,
    load_parsed_ok⟩

/-- Witness for C7 at concrete files: a malformed file, a file missing
name, a file missing secret, and the test fixture's valid file. -/
theorem C7_auth_load_witness :
    load_harbor_auth_file (.malformed "Expecting value") =
      .error (.jsonDecodeError "Expecting value") ∧
    (py_falsy (dict_get [("secret", "bad-password")] "name") = true ∧
      load_harbor_auth_file (.parsed [("secret", "bad-password")]) =
        .error (.valueError "Field 'name' is required")) ∧
    (py_falsy (dict_get [("name", "robot$harborapi-test")] "name") = false ∧
      py_falsy (dict_get [("name", "robot$harborapi-test")] "secret") = true ∧
      load_harbor_auth_file (.parsed [("name", "robot$harborapi-test")]) =
        .error (.valueError "Field 'secret' is required")) ∧
    load_harbor_auth_file
        (.parsed [("name", "robot$harborapi-test"),
          ("secret", "bad-password")]) =
      .ok (HarborAuthFile.parse_obj
        [("name", "robot$harborapi-test"), ("secret", "bad-password")]) :=
  ⟨C7_auth_load.1 "Expecting value",
    ⟨by decide, C7_auth_load.2.1 [("secret", "bad-password")] (by decide)⟩,
    ⟨by decide, by decide,
      C7_auth_load.2.2.1 [("name", "robot$harborapi-test")]
        (by decide) (by decide)⟩,
    C7_auth_load.2.2.2
      [("name", "robot$harborapi-test"), ("secret", "bad-password")]
      (by decide) (by decide)⟩

/-- C9: an auth file whose name or secret field is present but empty is
rejected with the same required-field error as a file missing the field,
because the check tests Python falsiness of the parsed value rather than
field presence. -/
theorem C9_empty_field_rejected :
    (∀ d : Dict, dict_get d "name" = some "" →
      load_harbor_auth_file (.parsed d) =
        .error (.valueError "Field 'name' is required")) ∧
    (∀ d : Dict, py_falsy (dict_get d "name") = false →
      dict_get d "secret" = some "" →
      load_harbor_auth_file (.parsed d) =
        .error (.valueError "Field 'secret' is required")) ∧
    (∀ d e : Dict, dict_get d "name" = some "" → dict_get e "name" = none →
      load_harbor_auth_file (.parsed d) =
        load_harbor_auth_file (.parsed e)) := by
  refine ⟨?_, ?_, ?_⟩
  · intro d h
    exact load_parsed_name_falsy d (by rw [h]; rfl)
  · intro d h1 h2
    exact load_parsed_secret_falsy d h1 (by rw [h2]; rfl)
  · intro d e h1 h2
    rw [load_parsed_name_falsy d (by rw [h1]; rfl),
      load_parsed_name_falsy e (by rw [h2]; rfl)]

/-- Witness for C9 at concrete files with empty name, empty secret, and a
missing-name file producing the identical error. -/
theorem C9_empty_field_rejected_witness :
    load_harbor_auth_file (.parsed [("name", ""), ("secret", "s")]) =
      .error (.valueError "Field 'name' is required") ∧
    load_harbor_auth_file (.parsed [("name", "n"), ("secret", "")]) =
      .error (.valueError "Field 'secret' is required") ∧
    load_harbor_auth_file (.parsed [("name", ""), ("secret", "s")]) =
      load_harbor_auth_file (.parsed [("secret", "s")]) :=
  ⟨C9_empty_field_rejected.1 [("name", ""), ("secret", "s")] (by decide),
    C9_empty_field_rejected.2.1 [("name", "n"), ("secret", "")]
      (by decide) (by decide),
    C9_empty_field_rejected.2.2 [("name", ""), ("secret", "s")]
      [("secret", "s")] (by decide) (by decide)⟩

/-- C8: save_authfile raises FileExistsError and leaves the filesystem
unchanged when the destination exists and overwrite is false; in every
other case (destination absent, or overwrite true) it writes the
serialized auth file to the destination. -/
theorem C8_save_authfile :
    (∀ (fs : FS) (path : String) (authfile : HarborAuthFile),
      path_exists fs path = true →
      save_authfile fs path authfile false =
        (some (.fileExistsError ("File " ++ path ++ " already exists")),
          fs)) ∧
    (∀ (fs : FS) (path : String) (authfile : HarborAuthFile)
      (overwrite : Bool),
      path_exists fs path = false ∨ overwrite = true →
      save_authfile fs path authfile overwrite =
        (none, fs_write fs path authfile)) := by
  constructor
  · intro fs path authfile h
    simp [save_authfile, h]
  · intro fs path authfile overwrite h
    rcases h with h | h
    · simp [save_authfile, h]
    · simp [save_authfile, h]

/-- Witness for C8: saving over an existing path without overwrite errors
and leaves the filesystem unchanged; with overwrite, or at a fresh path,
the file is written. -/
theorem C8_save_authfile_witness :
    (path_exists [("creds.json", HarborAuthFile.parse_obj [])]
        "creds.json" = true ∧
      save_authfile [("creds.json", HarborAuthFile.parse_obj [])]
          "creds.json" (HarborAuthFile.parse_obj [("name", "n")]) false =
        (some (.fileExistsError "File creds.json already exists"),
          [("creds.json", HarborAuthFile.parse_obj [])])) ∧
    save_authfile [("creds.json", HarborAuthFile.parse_obj [])]
        "creds.json" (HarborAuthFile.parse_obj [("name", "n")]) true =
      (none, fs_write [("creds.json", HarborAuthFile.parse_obj [])]
        "creds.json" (HarborAuthFile.parse_obj [("name", "n")])) ∧
    save_authfile [] "creds.json" (HarborAuthFile.parse_obj [("name", "n")])
        false =
      (none, fs_write [] "creds.json"
        (HarborAuthFile.parse_obj [("name", "n")])) := by
  refine ⟨⟨by decide, ?_⟩, ?_, ?_⟩
  · have h := C8_save_authfile.1 [("creds.json", HarborAuthFile.parse_obj [])]
      "creds.json" (HarborAuthFile.parse_obj [("name", "n")]) (by decide)
    simpa using h
  · exact C8_save_authfile.2 [("creds.json", HarborAuthFile.parse_obj [])]
      "creds.json" (HarborAuthFile.parse_obj [("name", "n")]) true
      (Or.inr rfl)
  · exact C8_save_authfile.2 [] "creds.json"
      (HarborAuthFile.parse_obj [("name", "n")]) false (Or.inl (by decide))

/-- C10: new_authfile_from_robotcreate builds the auth file from the merge
of the robotcreated record with the robotcreate record, in which every key
present in robotcreate takes robotcreate's value (in particular every key
present in both) and keys absent from robotcreate keep robotcreated's
value; new_authfile_from_robot always sets the saved file's secret to the
secret argument, overriding any secret carried by the robot record. -/
theorem C10_authfile_sources :
    (∀ (fs : FS) (path : String) (robotcreate robotcreated : Dict),
      new_authfile_from_robotcreate fs path robotcreate robotcreated true =
        (none, fs_write fs path
          (HarborAuthFile.parse_obj (dict_merge robotcreated robotcreate))) ∧
      (∀ k : String, (dict_get robotcreate k).isSome = true →
        dict_get (dict_merge robotcreated robotcreate) k =
          dict_get robotcreate k) ∧
      (∀ k : String, dict_get robotcreate k = none →
        dict_get (dict_merge robotcreated robotcreate) k =
          dict_get robotcreated k)) ∧
    (∀ (fs : FS) (path : String) (robot : Dict) (secret : String),
      (new_authfile_from_robot fs path robot secret true).1 = none ∧
      fs_get (new_authfile_from_robot fs path robot secret true).2 path =
        some { HarborAuthFile.parse_obj robot with secret := some secret }) := by
  constructor
  · intro fs path robotcreate robotcreated
    refine ⟨?_, fun k hk => dict_get_merge_of_right robotcreated robotcreate k hk,
      fun k hk => dict_get_merge_of_left robotcreated robotcreate k hk⟩
    simp [new_authfile_from_robotcreate, save_authfile]
  · intro fs path robot secret
    constructor
    · simp [new_authfile_from_robot, save_authfile]
    · simp [new_authfile_from_robot, save_authfile, fs_get, fs_write,
        List.find?_cons_of_pos]

/-- Witness for C10: a shared key takes the robotcreate value, a key only
in robotcreated survives, and the secret argument overrides the robot
record's own secret in the saved file. -/
theorem C10_authfile_sources_witness :
    (new_authfile_from_robotcreate [] "f.json"
        [("name", "fromcreate"), ("duration", "30")]
        [("name", "fromcreated"), ("id", "1")] true =
      (none, fs_write [] "f.json"
        (HarborAuthFile.parse_obj
          (dict_merge [("name", "fromcreated"), ("id", "1")]
            [("name", "fromcreate"), ("duration", "30")]))) ∧
      dict_get (dict_merge [("name", "fromcreated"), ("id", "1")]
          [("name", "fromcreate"), ("duration", "30")]) "name" =
        dict_get [("name", "fromcreate"), ("duration", "30")] "name" ∧
      dict_get (dict_merge [("name", "fromcreated"), ("id", "1")]
          [("name", "fromcreate"), ("duration", "30")]) "id" =
        dict_get [("name", "fromcreated"), ("id", "1")] "id") ∧
    fs_get (new_authfile_from_robot [] "f.json"
        [("name", "robot$r"), ("secret", "old-secret")] "new-secret"
        true).2 "f.json" =
      some { HarborAuthFile.parse_obj
          [("name", "robot$r"), ("secret", "old-secret")] with
        secret := some "new-secret" } := by
  have h1 := C10_authfile_sources.1 [] "f.json"
    [("name", "fromcreate"), ("duration", "30")]
    [("name", "fromcreated"), ("id", "1")]
  have h2 := C10_authfile_sources.2 [] "f.json"
    [("name", "robot$r"), ("secret", "old-secret")] "new-secret"
  exact ⟨⟨h1.1, h1.2.1 "name" (by decide), h1.2.2 "id" (by decide)⟩, h2.2⟩
